import Mathlib

/-!
Verification of the post-detection geometry and aggregation pipeline of
`src/backend/api.py` (screw detection + classification service).

Modelling conventions:
* Finite Python floats are embedded as exact rationals (`ℚ`); the float
  literals `0.45` and `0.05` of the source become the exact rationals
  9/20 and 1/20.
* Python `int(x)` on a finite float truncates toward zero; this is `pyInt`.
* Images are described by their integer width `w` and height `h`; a crop is
  identified with the integer box of the sub-buffer it takes
  (`np_img[y1:y2, x1:x2]`), since no claim depends on pixel values.
* The external classifier (`cls_model.predict`) is an oracle
  `IBox → Option (List ℚ)` returning the probability vector (`res.probs`)
  for the crop it is given, or `none` when the model produces no
  probabilities.
-/

namespace ScrewDetect

/-- Python `int()` applied to a finite float: truncation toward zero. -/
def pyInt (q : ℚ) : ℤ := if 0 ≤ q then ⌊q⌋ else ⌈q⌉

/-- An integer pixel box `(x1, y1, x2, y2)`, as produced by `clip_box`. -/
structure IBox where
  x1 : ℤ
  y1 : ℤ
  x2 : ℤ
  y2 : ℤ
deriving Repr, DecidableEq

/-- The integer core of `clip_box` (src/backend/api.py lines 70-79), after
the per-coordinate `int()` conversions: clamp each coordinate to
`[0, w-1]` resp. `[0, h-1]`, then nudge `x2`/`y2` right/down by one pixel
(saturating at the image edge) when the clamped extent is degenerate. -/
def clipInt (a1 b1 a2 b2 w h : ℤ) : IBox :=
  ⟨max 0 (min a1 (w - 1)),
   max 0 (min b1 (h - 1)),
   if max 0 (min a2 (w - 1)) ≤ max 0 (min a1 (w - 1)) then
     min (w - 1) (max 0 (min a1 (w - 1)) + 1)
   else max 0 (min a2 (w - 1)),
   if max 0 (min b2 (h - 1)) ≤ max 0 (min b1 (h - 1)) then
     min (h - 1) (max 0 (min b1 (h - 1)) + 1)
   else max 0 (min b2 (h - 1))⟩

/-- `clip_box(x1, y1, x2, y2, w, h)` from src/backend/api.py lines 69-79:
each float coordinate is first converted with Python `int()`, then clamped
and de-degenerated by `clipInt`. -/
def clip_box (x1 y1 x2 y2 : ℚ) (w h : ℤ) : IBox :=
  clipInt (pyInt x1) (pyInt y1) (pyInt x2) (pyInt y2) w h

lemma pyInt_intCast (n : ℤ) : pyInt (n : ℚ) = n := by
  unfold pyInt
  split <;> simp

/-- Weak clipping invariant of the integer core: coordinates stay inside
the image and never invert, for any `w, h ≥ 1`. -/
lemma clipInt_weak (a1 b1 a2 b2 w h : ℤ) (hw : 1 ≤ w) (hh : 1 ≤ h) :
    0 ≤ (clipInt a1 b1 a2 b2 w h).x1 ∧
    (clipInt a1 b1 a2 b2 w h).x1 ≤ (clipInt a1 b1 a2 b2 w h).x2 ∧
    (clipInt a1 b1 a2 b2 w h).x2 ≤ w - 1 ∧
    0 ≤ (clipInt a1 b1 a2 b2 w h).y1 ∧
    (clipInt a1 b1 a2 b2 w h).y1 ≤ (clipInt a1 b1 a2 b2 w h).y2 ∧
    (clipInt a1 b1 a2 b2 w h).y2 ≤ h - 1 := by
  simp only [clipInt]
  split_ifs <;> constructor <;> omega

/-- `clipInt` fixes any box that already satisfies the weak invariant,
provided a degenerate extent only occurs pinned at the image edge. -/
lemma clipInt_fix (p q r s w h : ℤ)
    (h1 : 0 ≤ p) (h2 : p ≤ r) (h3 : r ≤ w - 1)
    (h4 : 0 ≤ q) (h5 : q ≤ s) (h6 : s ≤ h - 1)
    (h7 : r ≤ p → p = w - 1) (h8 : s ≤ q → q = h - 1) :
    clipInt p q r s w h = ⟨p, q, r, s⟩ := by
  simp only [clipInt, IBox.mk.injEq]
  split_ifs <;> refine ⟨by omega, by omega, by omega, by omega⟩

/-- A degenerate horizontal extent in `clipInt` output only occurs when the
output `x1` is pinned at the right image edge `w - 1`. -/
lemma clipInt_x2_deg (a1 b1 a2 b2 w h : ℤ) (hw : 1 ≤ w)
    (hd : (clipInt a1 b1 a2 b2 w h).x2 ≤ (clipInt a1 b1 a2 b2 w h).x1) :
    (clipInt a1 b1 a2 b2 w h).x1 = w - 1 := by
  simp only [clipInt] at *
  split_ifs at hd <;> omega

/-- A degenerate vertical extent in `clipInt` output only occurs when the
output `y1` is pinned at the bottom image edge `h - 1`. -/
lemma clipInt_y2_deg (a1 b1 a2 b2 w h : ℤ) (hh : 1 ≤ h)
    (hd : (clipInt a1 b1 a2 b2 w h).y2 ≤ (clipInt a1 b1 a2 b2 w h).y1) :
    (clipInt a1 b1 a2 b2 w h).y1 = h - 1 := by
  simp only [clipInt] at *
  split_ifs at hd <;> omega

/-- The integer core is idempotent on its own output. -/
lemma clipInt_idem (a1 b1 a2 b2 w h : ℤ) (hw : 1 ≤ w) (hh : 1 ≤ h) :
    clipInt (clipInt a1 b1 a2 b2 w h).x1 (clipInt a1 b1 a2 b2 w h).y1
      (clipInt a1 b1 a2 b2 w h).x2 (clipInt a1 b1 a2 b2 w h).y2 w h =
    clipInt a1 b1 a2 b2 w h := by
  obtain ⟨h1, h2, h3, h4, h5, h6⟩ := clipInt_weak a1 b1 a2 b2 w h hw hh
  rw [clipInt_fix _ _ _ _ w h h1 h2 h3 h4 h5 h6
    (fun hd => clipInt_x2_deg a1 b1 a2 b2 w h hw hd)
    (fun hd => clipInt_y2_deg a1 b1 a2 b2 w h hh hd)]

/-- Strict horizontal extent holds whenever the output `x1` is not pinned
at the right image edge. -/
lemma clipInt_strict_x (a1 b1 a2 b2 w h : ℤ)
    (hx : (clipInt a1 b1 a2 b2 w h).x1 < w - 1) :
    (clipInt a1 b1 a2 b2 w h).x1 < (clipInt a1 b1 a2 b2 w h).x2 := by
  simp only [clipInt] at *
  split_ifs <;> omega

/-- Strict vertical extent holds whenever the output `y1` is not pinned
at the bottom image edge. -/
lemma clipInt_strict_y (a1 b1 a2 b2 w h : ℤ)
    (hy : (clipInt a1 b1 a2 b2 w h).y1 < h - 1) :
    (clipInt a1 b1 a2 b2 w h).y1 < (clipInt a1 b1 a2 b2 w h).y2 := by
  simp only [clipInt] at *
  split_ifs <;> omega

/-- C1 counterexample: for the box `(5, 0, 6, 1)` on a `2 × 2` image
(so `w = 2 ≥ 2`), `clip_box` returns `(1, 0, 1, 1)`, whose horizontal
coordinates are equal — the claimed strict inequality `x1 < x2` fails. -/
theorem clip_box_strict_cex :
    (2:ℤ) ≤ 2 ∧ clip_box 5 0 6 1 2 2 = ⟨1, 0, 1, 1⟩ ∧
    ¬ ((clip_box 5 0 6 1 2 2).x1 < (clip_box 5 0 6 1 2 2).x2) := by
  refine ⟨le_refl 2, by decide, by decide⟩

/-- C1 (amended): for every box and `w, h ≥ 2`, the `clip_box` output
satisfies `0 ≤ x1 ≤ x2 ≤ w-1` and `0 ≤ y1 ≤ y2 ≤ h-1`, and the
inequalities are strict (`x1 < x2`, `y1 < y2`) whenever the clamped low
coordinate is not pinned at the far image edge (`x1 < w-1`,
resp. `y1 < h-1`); when it is pinned there, the extent degenerates. -/
theorem clip_box_bounds_amended (x1 y1 x2 y2 : ℚ) (w h : ℤ)
    (hw : 2 ≤ w) (hh : 2 ≤ h) :
    0 ≤ (clip_box x1 y1 x2 y2 w h).x1 ∧
    (clip_box x1 y1 x2 y2 w h).x1 ≤ (clip_box x1 y1 x2 y2 w h).x2 ∧
    (clip_box x1 y1 x2 y2 w h).x2 ≤ w - 1 ∧
    0 ≤ (clip_box x1 y1 x2 y2 w h).y1 ∧
    (clip_box x1 y1 x2 y2 w h).y1 ≤ (clip_box x1 y1 x2 y2 w h).y2 ∧
    (clip_box x1 y1 x2 y2 w h).y2 ≤ h - 1 ∧
    ((clip_box x1 y1 x2 y2 w h).x1 < w - 1 →
      (clip_box x1 y1 x2 y2 w h).x1 < (clip_box x1 y1 x2 y2 w h).x2) ∧
    ((clip_box x1 y1 x2 y2 w h).y1 < h - 1 →
      (clip_box x1 y1 x2 y2 w h).y1 < (clip_box x1 y1 x2 y2 w h).y2) := by
  obtain ⟨h1, h2, h3, h4, h5, h6⟩ :=
    clipInt_weak (pyInt x1) (pyInt y1) (pyInt x2) (pyInt y2) w h
      (by omega) (by omega)
  exact ⟨h1, h2, h3, h4, h5, h6,
    fun hx => clipInt_strict_x (pyInt x1) (pyInt y1) (pyInt x2) (pyInt y2) w h hx,
    fun hy => clipInt_strict_y (pyInt x1) (pyInt y1) (pyInt x2) (pyInt y2) w h hy⟩

/-- Witness for the amended C1 at the box `(10, 10, 30, 30)` on a
`100 × 100` image. -/
theorem clip_box_bounds_amended_witness :
    ((2:ℤ) ≤ 100 ∧
      (0 ≤ (clip_box 10 10 30 30 100 100).x1 ∧
       (clip_box 10 10 30 30 100 100).x1 ≤ (clip_box 10 10 30 30 100 100).x2 ∧
       (clip_box 10 10 30 30 100 100).x2 ≤ 100 - 1 ∧
       0 ≤ (clip_box 10 10 30 30 100 100).y1 ∧
       (clip_box 10 10 30 30 100 100).y1 ≤ (clip_box 10 10 30 30 100 100).y2 ∧
       (clip_box 10 10 30 30 100 100).y2 ≤ 100 - 1 ∧
       ((clip_box 10 10 30 30 100 100).x1 < 100 - 1 →
         (clip_box 10 10 30 30 100 100).x1 < (clip_box 10 10 30 30 100 100).x2) ∧
       ((clip_box 10 10 30 30 100 100).y1 < 100 - 1 →
         (clip_box 10 10 30 30 100 100).y1 < (clip_box 10 10 30 30 100 100).y2))) :=
  ⟨by norm_num, clip_box_bounds_amended 10 10 30 30 100 100 (by norm_num) (by norm_num)⟩

/-- C10: weak clipping invariant — for every box and every image with
`w, h ≥ 1`, `clip_box` output satisfies the non-strict chains
`0 ≤ x1 ≤ x2 ≤ w-1` and `0 ≤ y1 ≤ y2 ≤ h-1`. -/
theorem clip_box_weak_invariant (x1 y1 x2 y2 : ℚ) (w h : ℤ)
    (hw : 1 ≤ w) (hh : 1 ≤ h) :
    0 ≤ (clip_box x1 y1 x2 y2 w h).x1 ∧
    (clip_box x1 y1 x2 y2 w h).x1 ≤ (clip_box x1 y1 x2 y2 w h).x2 ∧
    (clip_box x1 y1 x2 y2 w h).x2 ≤ w - 1 ∧
    0 ≤ (clip_box x1 y1 x2 y2 w h).y1 ∧
    (clip_box x1 y1 x2 y2 w h).y1 ≤ (clip_box x1 y1 x2 y2 w h).y2 ∧
    (clip_box x1 y1 x2 y2 w h).y2 ≤ h - 1 :=
  clipInt_weak (pyInt x1) (pyInt y1) (pyInt x2) (pyInt y2) w h hw hh

/-- Witness for C10 on the degenerate `1 × 1` image. -/
theorem clip_box_weak_invariant_witness :
    (1:ℤ) ≤ 1 ∧
    (0 ≤ (clip_box 3 3 5 5 1 1).x1 ∧
     (clip_box 3 3 5 5 1 1).x1 ≤ (clip_box 3 3 5 5 1 1).x2 ∧
     (clip_box 3 3 5 5 1 1).x2 ≤ 1 - 1 ∧
     0 ≤ (clip_box 3 3 5 5 1 1).y1 ∧
     (clip_box 3 3 5 5 1 1).y1 ≤ (clip_box 3 3 5 5 1 1).y2 ∧
     (clip_box 3 3 5 5 1 1).y2 ≤ 1 - 1) :=
  ⟨le_refl 1, clip_box_weak_invariant 3 3 5 5 1 1 (le_refl 1) (le_refl 1)⟩

/-- C4: `clip_box` is idempotent — re-clipping its (integer) output with
the same image dimensions returns the output unchanged, for every finite
box and every `w, h ≥ 1`. -/
theorem clip_box_idem (x1 y1 x2 y2 : ℚ) (w h : ℤ) (hw : 1 ≤ w) (hh : 1 ≤ h) :
    clip_box ((clip_box x1 y1 x2 y2 w h).x1 : ℚ)
      ((clip_box x1 y1 x2 y2 w h).y1 : ℚ)
      ((clip_box x1 y1 x2 y2 w h).x2 : ℚ)
      ((clip_box x1 y1 x2 y2 w h).y2 : ℚ) w h =
    clip_box x1 y1 x2 y2 w h := by
  show clipInt _ _ _ _ w h = _
  rw [pyInt_intCast, pyInt_intCast, pyInt_intCast, pyInt_intCast]
  exact clipInt_idem (pyInt x1) (pyInt y1) (pyInt x2) (pyInt y2) w h hw hh

/-- Witness for C4: re-clipping the clipped box of Scenario A
(`(90, 90, 120, 120)` on a `100 × 100` image) is a no-op. -/
theorem clip_box_idem_witness :
    (1:ℤ) ≤ 100 ∧
    clip_box ((clip_box 90 90 120 120 100 100).x1 : ℚ)
      ((clip_box 90 90 120 120 100 100).y1 : ℚ)
      ((clip_box 90 90 120 120 100 100).x2 : ℚ)
      ((clip_box 90 90 120 120 100 100).y2 : ℚ) 100 100 =
    clip_box 90 90 120 120 100 100 :=
  ⟨by norm_num, clip_box_idem 90 90 120 120 100 100 (by norm_num) (by norm_num)⟩

/-- C9: whenever the clamped coordinates are degenerate (`x2 ≤ x1`),
`clip_box` forces a minimum one-pixel width by setting
`x2 = min (w-1) (x1+1)`; symmetrically for `y`; and in particular the
detector box `(50, 50, 50, 60)` on a `200 × 200` image is clipped to
`(50, 50, 51, 60)`. -/
theorem clip_box_min_width_nudge (x1 y1 x2 y2 : ℚ) (w h : ℤ) :
    (max 0 (min (pyInt x2) (w - 1)) ≤ max 0 (min (pyInt x1) (w - 1)) →
      (clip_box x1 y1 x2 y2 w h).x2 =
        min (w - 1) ((clip_box x1 y1 x2 y2 w h).x1 + 1)) ∧
    (max 0 (min (pyInt y2) (h - 1)) ≤ max 0 (min (pyInt y1) (h - 1)) →
      (clip_box x1 y1 x2 y2 w h).y2 =
        min (h - 1) ((clip_box x1 y1 x2 y2 w h).y1 + 1)) ∧
    clip_box 50 50 50 60 200 200 = ⟨50, 50, 51, 60⟩ := by
  refine ⟨fun hc => ?_, fun hc => ?_, by decide⟩
  · simp only [clip_box, clipInt]
    rw [if_pos hc]
  · simp only [clip_box, clipInt]
    rw [if_pos hc]

/-- Witness for C9 at Scenario B: the zero-width box `(50, 50, 50, 60)`
on a `200 × 200` image. -/
theorem clip_box_min_width_nudge_witness :
    (max 0 (min (pyInt 50) (200 - 1)) ≤ max 0 (min (pyInt 50) (200 - 1))) ∧
    (clip_box 50 50 50 60 200 200).x2 =
      min ((200:ℤ) - 1) ((clip_box 50 50 50 60 200 200).x1 + 1) ∧
    clip_box 50 50 50 60 200 200 = ⟨50, 50, 51, 60⟩ :=
  ⟨le_refl _,
   (clip_box_min_width_nudge 50 50 50 60 200 200).1 (le_refl _),
   (clip_box_min_width_nudge 50 50 50 60 200 200).2.2⟩

lemma pyInt_eq_floor (q : ℚ) (hq : 0 ≤ q) : pyInt q = ⌊q⌋ := if_pos hq

/-- The intermediate square of `head_square_crop`
(src/backend/api.py lines 92-108), computed from the already clipped box
`c`: box extent, head-biased anchor `(cx, cy)`, padding, and the shifted
square corners, before the final re-clip.  The float constants `0.45` and
`0.05` of the source are modelled as exact rationals. -/
def head_square_mid (c : IBox) : IBox :=
  let bw := c.x2 - c.x1
  let bh := c.y2 - c.y1
  let side := max bw bh
  let cx := pyInt (((c.x1 + c.x2 : ℤ) : ℚ) / 2)
  let cy := pyInt ((c.y1 : ℚ) + (bh : ℚ) * 0.45)
  let pad := pyInt ((side : ℚ) * 0.05)
  let side2 := side + 2 * pad
  ⟨cx - side2, cy - side2, cx - side2 + side2, cy - side2 + side2⟩

/-- `head_square_crop(np_img, box_xyxy)` from src/backend/api.py
lines 87-111, as the integer box of the returned sub-buffer: clip the raw
box; if the clipped extent is degenerate (`side < 2`) fall back to the
plain rectangular crop (`crop_rgb`, which re-clips); otherwise build the
head-biased square and re-clip it against the image bounds. -/
def head_square_crop (x1 y1 x2 y2 : ℚ) (w h : ℤ) : IBox :=
  let c := clip_box x1 y1 x2 y2 w h
  let side := max (c.x2 - c.x1) (c.y2 - c.y1)
  if side < 2 then
    clip_box (c.x1 : ℚ) (c.y1 : ℚ) (c.x2 : ℚ) (c.y2 : ℚ) w h
  else
    let m := head_square_mid c
    clip_box (m.x1 : ℚ) (m.y1 : ℚ) (m.x2 : ℚ) (m.y2 : ℚ) w h

/-- C5: for every clipped box `c` (with `0 ≤ x1 ≤ x2`, `0 ≤ y1 ≤ y2`)
whose side `max bw bh` is at least 2, the square constructed by
`head_square_crop` before the final re-clip is exactly
`(cx - side2, cy - side2, cx, cy)` where `cx = ⌊(x1+x2)/2⌋`,
`cy = ⌊y1 + 0.45·bh⌋`, `pad = ⌊side·0.05⌋`, `side2 = side + 2·pad`:
the anchor `(cx, cy)` is the square's bottom-right corner, not its
center. -/
theorem head_square_mid_geometry (c : IBox)
    (hx1 : 0 ≤ c.x1) (hx : c.x1 ≤ c.x2) (hy1 : 0 ≤ c.y1) (hy : c.y1 ≤ c.y2)
    (hs : 2 ≤ max (c.x2 - c.x1) (c.y2 - c.y1)) :
    head_square_mid c =
      ⟨⌊((c.x1 + c.x2 : ℤ) : ℚ) / 2⌋ -
         (max (c.x2 - c.x1) (c.y2 - c.y1) +
          2 * ⌊((max (c.x2 - c.x1) (c.y2 - c.y1) : ℤ) : ℚ) * 0.05⌋),
       ⌊(c.y1 : ℚ) + 0.45 * ((c.y2 - c.y1 : ℤ) : ℚ)⌋ -
         (max (c.x2 - c.x1) (c.y2 - c.y1) +
          2 * ⌊((max (c.x2 - c.x1) (c.y2 - c.y1) : ℤ) : ℚ) * 0.05⌋),
       ⌊((c.x1 + c.x2 : ℤ) : ℚ) / 2⌋,
       ⌊(c.y1 : ℚ) + 0.45 * ((c.y2 - c.y1 : ℤ) : ℚ)⌋⟩ := by
  have hcx : (0:ℚ) ≤ ((c.x1 + c.x2 : ℤ) : ℚ) / 2 := by
    have : (0:ℤ) ≤ c.x1 + c.x2 := by omega
    have h0 : (0:ℚ) ≤ ((c.x1 + c.x2 : ℤ) : ℚ) := by exact_mod_cast this
    linarith
  have hbh : (0:ℚ) ≤ ((c.y2 - c.y1 : ℤ) : ℚ) := by
    have : (0:ℤ) ≤ c.y2 - c.y1 := by omega
    exact_mod_cast this
  have hcy : (0:ℚ) ≤ (c.y1 : ℚ) + ((c.y2 - c.y1 : ℤ) : ℚ) * 0.45 := by
    have h0 : (0:ℚ) ≤ (c.y1 : ℚ) := by exact_mod_cast hy1
    nlinarith
  have hpa : (0:ℚ) ≤ ((max (c.x2 - c.x1) (c.y2 - c.y1) : ℤ) : ℚ) * 0.05 := by
    have : (0:ℤ) ≤ max (c.x2 - c.x1) (c.y2 - c.y1) := by omega
    have h0 : (0:ℚ) ≤ ((max (c.x2 - c.x1) (c.y2 - c.y1) : ℤ) : ℚ) := by
      exact_mod_cast this
    nlinarith
  have hcomm : ⌊(c.y1 : ℚ) + ((c.y2 - c.y1 : ℤ) : ℚ) * 0.45⌋ =
      ⌊(c.y1 : ℚ) + 0.45 * ((c.y2 - c.y1 : ℤ) : ℚ)⌋ := by rw [mul_comm]
  simp only [head_square_mid, pyInt_eq_floor _ hcx, pyInt_eq_floor _ hcy,
    pyInt_eq_floor _ hpa, IBox.mk.injEq, hcomm]
  exact ⟨trivial, trivial, by omega, by omega⟩

/-- Witness for C5 at the clipped box `(10, 10, 30, 30)` (side 20). -/
theorem head_square_mid_geometry_witness :
    (0 ≤ (IBox.mk 10 10 30 30).x1 ∧
     2 ≤ max ((IBox.mk 10 10 30 30).x2 - (IBox.mk 10 10 30 30).x1)
           ((IBox.mk 10 10 30 30).y2 - (IBox.mk 10 10 30 30).y1)) ∧
    head_square_mid ⟨10, 10, 30, 30⟩ = ⟨-2, -3, 20, 19⟩ := by
  refine ⟨⟨by decide, by decide⟩, ?_⟩
  rw [head_square_mid_geometry ⟨10, 10, 30, 30⟩ (by decide) (by decide)
    (by decide) (by decide) (by decide)]
  norm_num

/-- One `{label, confidence}` entry of the top-k list. -/
structure TopEntry where
  label : String
  confidence : ℚ
deriving Repr, DecidableEq

/-- The classification result dictionary returned by `classify_crop`:
`{label, confidence, topk}`, with `label = confidence = none` when the
classifier produced no usable probabilities. -/
structure ClsResult where
  label : Option String
  confidence : Option ℚ
  topk : List TopEntry
deriving Repr, DecidableEq

/-- Insert index `i` into an index list ordered by decreasing probability
`p`: `i` goes in front of the first index with strictly smaller
probability. -/
def insertDesc (p : List ℚ) (i : ℕ) : List ℕ → List ℕ
  | [] => [i]
  | j :: rest =>
    if p.getD j 0 < p.getD i 0 then i :: j :: rest else j :: insertDesc p i rest

/-- Model of `np.argsort(-p)` (src/backend/api.py line 152): the indices
`0, …, len(p)-1` ordered by decreasing probability.  `np.argsort`'s
default quicksort leaves the relative order of equal values unspecified;
this model orders equal values by ascending index, and no theorem below
depends on the order chosen among equal values. -/
def argsortDesc (p : List ℚ) : List ℕ :=
  (List.range p.length).foldl (fun acc i => insertDesc p i acc) []

/-- `classify_crop`'s aggregation step (src/backend/api.py lines 147-161):
a missing probability vector yields the null result; otherwise take the
first `topk` indices of the descending argsort, map them to
`{label, confidence}` entries, and expose the best entry (`top_list[0]`)
as the top-level label/confidence. -/
def classify_crop (probs : Option (List ℚ)) (names : ℕ → String)
    (topk : ℕ) : ClsResult :=
  match probs with
  | none => ⟨none, none, []⟩
  | some p =>
    let idxs := (argsortDesc p).take topk
    let top_list := idxs.map fun i => TopEntry.mk (names i) (p.getD i 0)
    match top_list with
    | [] => ⟨none, none, []⟩
    | best :: rest => ⟨some best.label, some best.confidence, best :: rest⟩

lemma length_insertDesc (p : List ℚ) (i : ℕ) (l : List ℕ) :
    (insertDesc p i l).length = l.length + 1 := by
  induction l with
  | nil => rfl
  | cons j rest ih =>
    simp only [insertDesc]
    split <;> simp [ih]

lemma length_argsortDesc (p : List ℚ) : (argsortDesc p).length = p.length := by
  suffices hgen : ∀ (l : List ℕ) (acc : List ℕ),
      (l.foldl (fun acc i => insertDesc p i acc) acc).length =
        acc.length + l.length by
    simpa [argsortDesc] using hgen (List.range p.length) []
  intro l
  induction l with
  | nil => simp
  | cons j rest ih =>
    intro acc
    simp only [List.foldl_cons, ih, length_insertDesc, List.length_cons]
    omega

lemma mem_insertDesc (p : List ℚ) (i : ℕ) (l : List ℕ) (x : ℕ)
    (hx : x ∈ insertDesc p i l) : x = i ∨ x ∈ l := by
  induction l with
  | nil => simpa [insertDesc] using hx
  | cons j rest ih =>
    simp only [insertDesc] at hx
    split at hx
    · simpa using hx
    · rcases List.mem_cons.1 hx with hj | hrest
      · simp [hj]
      · rcases ih hrest with hi | hr
        · exact Or.inl hi
        · exact Or.inr (List.mem_cons_of_mem j hr)

lemma pairwise_insertDesc (p : List ℚ) (i : ℕ) (l : List ℕ)
    (hl : l.Pairwise fun a b => p.getD b 0 ≤ p.getD a 0) :
    (insertDesc p i l).Pairwise fun a b => p.getD b 0 ≤ p.getD a 0 := by
  induction l with
  | nil => simp [insertDesc]
  | cons j rest ih =>
    rcases List.pairwise_cons.1 hl with ⟨hj, hrest⟩
    simp only [insertDesc]
    split
    · rename_i hlt
      refine List.pairwise_cons.2 ⟨?_, hl⟩
      intro y hy
      rcases List.mem_cons.1 hy with rfl | hyr
      · exact hlt.le
      · exact (hj y hyr).trans hlt.le
    · rename_i hge
      refine List.pairwise_cons.2 ⟨?_, ih hrest⟩
      intro y hy
      rcases mem_insertDesc p i rest y hy with rfl | hyr
      · exact not_lt.1 hge
      · exact hj y hyr

lemma pairwise_argsortDesc (p : List ℚ) :
    (argsortDesc p).Pairwise fun a b => p.getD b 0 ≤ p.getD a 0 := by
  suffices hgen : ∀ (l : List ℕ) (acc : List ℕ),
      (acc.Pairwise fun a b => p.getD b 0 ≤ p.getD a 0) →
      ((l.foldl (fun acc i => insertDesc p i acc) acc).Pairwise
        fun a b => p.getD b 0 ≤ p.getD a 0) by
    exact hgen (List.range p.length) [] (by simp)
  intro l
  induction l with
  | nil => exact fun acc h => h
  | cons j rest ih =>
    intro acc hacc
    exact ih (insertDesc p j acc) (pairwise_insertDesc p j acc hacc)

/-- C6: for every (non-absent) probability vector `p` and every `k`, the
`topk` list of `classify_crop` has length `min k (len p)`, its
confidences are non-increasing, and when it is non-empty the top-level
label/confidence equal those of its first entry. -/
theorem classify_crop_topk_spec (p : List ℚ) (names : ℕ → String) (k : ℕ) :
    (classify_crop (some p) names k).topk.length = min k p.length ∧
    ((classify_crop (some p) names k).topk.Pairwise
      fun a b => b.confidence ≤ a.confidence) ∧
    (∀ e, (classify_crop (some p) names k).topk.head? = some e →
      (classify_crop (some p) names k).label = some e.label ∧
      (classify_crop (some p) names k).confidence = some e.confidence) := by
  have hlen : (((argsortDesc p).take k).map
      fun i => TopEntry.mk (names i) (p.getD i 0)).length = min k p.length := by
    rw [List.length_map, List.length_take, length_argsortDesc]
  have hpw : ((((argsortDesc p).take k).map
      fun i => TopEntry.mk (names i) (p.getD i 0)).Pairwise
        fun a b => b.confidence ≤ a.confidence) := by
    refine (List.pairwise_map).2 ?_
    exact ((pairwise_argsortDesc p).sublist (List.take_sublist k _))
  rcases hL : ((argsortDesc p).take k).map
      (fun i => TopEntry.mk (names i) (p.getD i 0)) with _ | ⟨b, rest⟩
  · rw [hL] at hlen
    refine ⟨?_, ?_, ?_⟩
    · simp only [classify_crop, hL]
      exact hlen
    · simp only [classify_crop, hL]
      exact List.Pairwise.nil
    · intro e he
      simp only [classify_crop, hL, List.head?_nil] at he
      exact Option.noConfusion he
  · rw [hL] at hlen hpw
    refine ⟨?_, ?_, ?_⟩
    · simp only [classify_crop, hL]
      exact hlen
    · simp only [classify_crop, hL]
      exact hpw
    · intro e he
      simp only [classify_crop, hL, List.head?_cons, Option.some.injEq] at he ⊢
      exact ⟨by rw [he], by rw [he]⟩

/-- Witness for C6 at `p = [1, 3, 2]`, `k = 2`. -/
theorem classify_crop_topk_spec_witness :
    ((classify_crop (some [1, 3, 2]) (fun n => n.repr) 2).topk.length =
       min 2 ([1, 3, 2] : List ℚ).length ∧
     (classify_crop (some [1, 3, 2]) (fun n => n.repr) 2).topk.head? =
       some ⟨Nat.repr 1, 3⟩ ∧
     (classify_crop (some [1, 3, 2]) (fun n => n.repr) 2).label =
       some (TopEntry.mk (Nat.repr 1) 3).label ∧
     (classify_crop (some [1, 3, 2]) (fun n => n.repr) 2).confidence =
       some (TopEntry.mk (Nat.repr 1) 3).confidence) := by
  have h := classify_crop_topk_spec [1, 3, 2] (fun n => n.repr) 2
  have hhead : (classify_crop (some [1, 3, 2]) (fun n => n.repr) 2).topk.head? =
      some ⟨Nat.repr 1, 3⟩ := by decide
  exact ⟨h.1, hhead, h.2.2 ⟨Nat.repr 1, 3⟩ hhead⟩

/-- A raw float bounding box `xyxy` in detector output space. -/
structure QBox where
  x1 : ℚ
  y1 : ℚ
  x2 : ℚ
  y2 : ℚ
deriving Repr, DecidableEq

/-- One detection as extracted from the detector output inside `predict`
(src/backend/api.py lines 230-234): detector label, confidence and raw
`xyxy` box. -/
structure Detection where
  label : String
  confidence : ℚ
  bbox : QBox
deriving Repr, DecidableEq

/-- One `{det, cls}` entry of the response's `detections` list. -/
structure DetEntry where
  det : Detection
  cls : ClsResult
deriving Repr, DecidableEq

/-- The successful `predict` response: `ok` flag, image size and the
ordered per-detection entries (filename and timing omitted). -/
structure PipelineResult where
  ok : Bool
  w : ℤ
  h : ℤ
  detections : List DetEntry
deriving Repr, DecidableEq

/-- `enhance_for_cls` (src/backend/api.py lines 113-129) is a pixel-level
transform (CLAHE on the LAB L channel, identity when OpenCV is absent)
that keeps the crop's dimensions; on the crop-region abstraction used
here it is the identity.  The external classifier oracle consumes the
enhanced crop. -/
def enhance_for_cls (crop : IBox) : IBox := crop

/-- The body of `predict`'s per-detection loop (src/backend/api.py lines
228-250): head-square crop, enhancement, classification; appends the
`{det, cls}` entry and counts one external classifier invocation. -/
def predictStep (w h : ℤ) (classifier : IBox → Option (List ℚ))
    (names : ℕ → String) (cls_topk : ℕ)
    (acc : List DetEntry × ℕ) (b : Detection) : List DetEntry × ℕ :=
  let crop := head_square_crop b.bbox.x1 b.bbox.y1 b.bbox.x2 b.bbox.y2 w h
  let crop2 := enhance_for_cls crop
  let cls_out := classify_crop (classifier crop2) names cls_topk
  (acc.1 ++ [⟨b, cls_out⟩], acc.2 + 1)

/-- `predict` (src/backend/api.py lines 167-257) after decoding and
detection, abstracted over the detector output `boxes` and the external
classifier oracle: the response plus the number of classifier
invocations.  With no boxes it returns early — before the loop — with an
empty `detections` list. -/
def predict (w h : ℤ) (classifier : IBox → Option (List ℚ))
    (names : ℕ → String) (cls_topk : ℕ) (boxes : List Detection) :
    PipelineResult × ℕ :=
  if boxes.length = 0 then (⟨true, w, h, []⟩, 0)
  else
    let r := boxes.foldl (predictStep w h classifier names cls_topk) ([], 0)
    (⟨true, w, h, r.1⟩, r.2)

/-- The `{det, cls}` entry `predict` produces for one detection. -/
def entryOf (w h : ℤ) (classifier : IBox → Option (List ℚ))
    (names : ℕ → String) (cls_topk : ℕ) (b : Detection) : DetEntry :=
  ⟨b, classify_crop
    (classifier (enhance_for_cls
      (head_square_crop b.bbox.x1 b.bbox.y1 b.bbox.x2 b.bbox.y2 w h)))
    names cls_topk⟩

lemma predict_foldl (w h : ℤ) (classifier : IBox → Option (List ℚ))
    (names : ℕ → String) (cls_topk : ℕ) (boxes : List Detection)
    (acc : List DetEntry × ℕ) :
    boxes.foldl (predictStep w h classifier names cls_topk) acc =
      (acc.1 ++ boxes.map (entryOf w h classifier names cls_topk),
       acc.2 + boxes.length) := by
  induction boxes generalizing acc with
  | nil => simp
  | cons b rest ih =>
    simp only [List.foldl_cons, ih, predictStep, entryOf, List.map_cons,
      List.length_cons, List.append_assoc, List.singleton_append,
      Prod.mk.injEq]
    exact ⟨trivial, by omega⟩

lemma predict_eq (w h : ℤ) (classifier : IBox → Option (List ℚ))
    (names : ℕ → String) (cls_topk : ℕ) (boxes : List Detection) :
    predict w h classifier names cls_topk boxes =
      (⟨true, w, h, boxes.map (entryOf w h classifier names cls_topk)⟩,
       boxes.length) := by
  rcases boxes with _ | ⟨b, rest⟩
  · simp [predict]
  · simp only [predict, List.length_cons]
    rw [if_neg (by omega), predict_foldl]
    simp

/-- C3: the orchestrator's `detections` output has exactly one entry per
input detection, in detector order: projecting the `det` field of the
output recovers the input list, and the lengths agree. -/
theorem predict_preserves_detections (w h : ℤ)
    (classifier : IBox → Option (List ℚ)) (names : ℕ → String)
    (cls_topk : ℕ) (boxes : List Detection) :
    (predict w h classifier names cls_topk boxes).1.detections.map
        DetEntry.det = boxes ∧
    (predict w h classifier names cls_topk boxes).1.detections.length =
      boxes.length := by
  rw [predict_eq]
  constructor
  · simp [entryOf, Function.comp_def]
  · simp

/-- C8: with zero detections `predict` returns a success result with an
empty detection list and the classifier is never invoked (zero classifier
calls). -/
theorem predict_empty_detections (w h : ℤ)
    (classifier : IBox → Option (List ℚ)) (names : ℕ → String)
    (cls_topk : ℕ) :
    (predict w h classifier names cls_topk []).1.ok = true ∧
    (predict w h classifier names cls_topk []).1.detections = [] ∧
    (predict w h classifier names cls_topk []).2 = 0 := by
  refine ⟨rfl, rfl, rfl⟩

/-- C7: a classifier miss (no probability vector) for detection `i` sets
that entry's `cls` to the null result; every detection, the missed one
included, still appears in the output at its original position, and each
entry carries its own classification, independent of the miss. -/
theorem classifier_miss_isolated (w h : ℤ)
    (classifier : IBox → Option (List ℚ)) (names : ℕ → String)
    (cls_topk : ℕ) (boxes : List Detection) (i : ℕ) (b : Detection)
    (hb : boxes[i]? = some b)
    (hmiss : classifier (enhance_for_cls
      (head_square_crop b.bbox.x1 b.bbox.y1 b.bbox.x2 b.bbox.y2 w h)) =
        none) :
    ((predict w h classifier names cls_topk boxes).1.detections)[i]? =
      some ⟨b, ⟨none, none, []⟩⟩ ∧
    (predict w h classifier names cls_topk boxes).1.detections.length =
      boxes.length ∧
    (predict w h classifier names cls_topk boxes).1.detections.map
        DetEntry.det = boxes ∧
    (∀ (j : ℕ) (bj : Detection), boxes[j]? = some bj →
      ((predict w h classifier names cls_topk boxes).1.detections)[j]? =
        some (entryOf w h classifier names cls_topk bj)) := by
  rw [predict_eq]
  refine ⟨?_, by simp, by simp [entryOf, Function.comp_def], ?_⟩
  · simp only [List.getElem?_map, hb]
    show some (entryOf w h classifier names cls_topk b) = _
    simp only [entryOf, hmiss]
    rfl
  · intro j bj hbj
    simp only [List.getElem?_map, hbj]
    rfl

/-- A concrete classifier oracle that misses (returns no probability
vector) exactly on the crop `(20, 20, 21, 21)` and otherwise returns the
vector `[1, 2]`. -/
def missOracle : IBox → Option (List ℚ) :=
  fun c => if c = ⟨20, 20, 21, 21⟩ then none else some [1, 2]

/-- Three concrete detections; the second one's crop triggers the miss of
`missOracle`. -/
def missBoxes : List Detection :=
  [⟨"a", 1, ⟨10, 10, 10, 10⟩⟩, ⟨"b", 1, ⟨20, 20, 20, 20⟩⟩,
   ⟨"c", 1, ⟨30, 30, 30, 30⟩⟩]

/-- Witness for C7: among the three detections of `missBoxes`, the second
crop's classification misses; its entry gets the null result, all three
entries are present in order, and the first entry keeps its own
classification. -/
theorem classifier_miss_isolated_witness :
    missBoxes[1]? = some ⟨"b", 1, ⟨20, 20, 20, 20⟩⟩ ∧
    ((predict 100 100 missOracle (fun n => n.repr) 4
        missBoxes).1.detections)[1]? =
      some ⟨⟨"b", 1, ⟨20, 20, 20, 20⟩⟩, ⟨none, none, []⟩⟩ ∧
    (predict 100 100 missOracle (fun n => n.repr) 4
        missBoxes).1.detections.length = missBoxes.length ∧
    ((predict 100 100 missOracle (fun n => n.repr) 4
        missBoxes).1.detections)[0]? =
      some (entryOf 100 100 missOracle (fun n => n.repr) 4
        ⟨"a", 1, ⟨10, 10, 10, 10⟩⟩) := by
  have h := classifier_miss_isolated 100 100 missOracle (fun n => n.repr) 4
    missBoxes 1 ⟨"b", 1, ⟨20, 20, 20, 20⟩⟩ rfl (by decide)
  exact ⟨rfl, h.1, h.2.1, h.2.2.2 0 ⟨"a", 1, ⟨10, 10, 10, 10⟩⟩ rfl⟩

end ScrewDetect
